import Mathlib

/-
Verification of the cocobase dynamic filter/query compiler with automatic
relationship resolution, as specified by the repository's documentation
(docs/api/collections.md, docs/javascript/relationships.md,
docs/cloud-functions/database.md and the API reference pages).

The repository ships only documentation: the engine itself is modelled here
from the specification and from the concrete behaviour the documentation
pages record (operator tables, auto-detection pseudo-code, population
input/output examples, pagination tables, error-handling contracts).
-/

namespace Cocobase

/-- JSON-typed scalar value stored in a document field.  `strList` models the
array-of-ids form used by `*_ids` foreign-key fields and by `in`-operator
literals. -/
inductive Value where
  | str (s : String)
  | num (n : Int)
  | bool (b : Bool)
  | null
  | strList (ss : List String)
deriving DecidableEq, Repr

/-- Literal carried by a filter clause: a single scalar, or a comma-split
list for the `in` / `notin` operators. -/
inductive ClauseVal where
  | lit (v : Value)
  | litList (vs : List Value)
deriving DecidableEq, Repr

/-- Document: an opaque id plus an arbitrary association map of fields. -/
structure Doc where
  id : String
  data : List (String × Value)
deriving DecidableEq, Repr

/-- Field lookup in a document's data blob. -/
def getField (d : Doc) (f : String) : Option Value :=
  (d.data.find? (fun p => decide (p.1 = f))).map (fun p => p.2)

/-- Enumerated operator kinds, from the documented operator suffix tables. -/
inductive OperatorKind where
  | eq | ne | gt | gte | lt | lte
  | contains | icontains | startswith | istartswith | endswith | iendswith
  | in_ | notin | isnull
deriving DecidableEq, Repr

/-- Boolean prefix test on character lists. -/
def isPrefixB : List Char → List Char → Bool
  | [], _ => true
  | _ :: _, [] => false
  | a :: as, b :: bs => decide (a = b) && isPrefixB as bs

/-- Boolean infix (substring) test on character lists: `isInfixB n h` is true
when `n` occurs contiguously inside `h`. -/
def isInfixB (needle : List Char) : List Char → Bool
  | [] => isPrefixB needle []
  | b :: bs => isPrefixB needle (b :: bs) || isInfixB needle bs

/-- Lower-cased character list of a string, for the documented
case-insensitive (ILIKE) string matches. -/
def lowerChars (s : String) : List Char :=
  s.data.map Char.toLower

/-- Test for SQL-null-like stored values: an absent field or a JSON null. -/
def isNullish : Option Value → Bool
  | none => true
  | some .null => true
  | _ => false

/-- Modelled from the spec: clause-level operator evaluation of QueryExecutor
(the engine's code is not in the repository).  Numeric comparisons require a
numeric stored value and otherwise evaluate to `false` rather than raising;
every type mismatch falls through to `false`, keeping evaluation total.
`contains` is case-insensitive, matching the documented ILIKE semantics
(the API quick reference and the Python/Dart pages), while `startswith` /
`endswith` are case-sensitive with `i`-prefixed case-insensitive variants. -/
def evalOp (stored : Option Value) (op : OperatorKind) (v : ClauseVal) : Bool :=
  match op, stored, v with
  | .eq, some w, .lit x => decide (w = x)
  | .ne, some w, .lit x => !(decide (w = x))
  | .gt, some (.num a), .lit (.num b) => decide (b < a)
  | .gte, some (.num a), .lit (.num b) => decide (b ≤ a)
  | .lt, some (.num a), .lit (.num b) => decide (a < b)
  | .lte, some (.num a), .lit (.num b) => decide (a ≤ b)
  | .contains, some (.str s), .lit (.str t) => isInfixB (lowerChars t) (lowerChars s)
  | .icontains, some (.str s), .lit (.str t) => isInfixB (lowerChars t) (lowerChars s)
  | .startswith, some (.str s), .lit (.str t) => isPrefixB t.data s.data
  | .istartswith, some (.str s), .lit (.str t) => isPrefixB (lowerChars t) (lowerChars s)
  | .endswith, some (.str s), .lit (.str t) => isPrefixB t.data.reverse s.data.reverse
  | .iendswith, some (.str s), .lit (.str t) => isPrefixB (lowerChars t).reverse (lowerChars s).reverse
  | .in_, some w, .litList xs => decide (w ∈ xs)
  | .notin, some w, .litList xs => !(decide (w ∈ xs))
  | .isnull, st, .lit (.bool b) => decide (isNullish st = b)
  | _, _, _ => false

/-- Parsed filter clause: field path (dot-split), operator, literal and
OR-group tag (`none` = unconditionally ANDed). -/
structure FilterClause where
  fieldPath : List String
  op : OperatorKind
  value : ClauseVal
  orGroup : Option String
deriving DecidableEq, Repr

/-- Modelled from the spec: QueryExecutor's direct clause evaluation.  Only
flat (single-segment) field paths are directly evaluable; QueryCompiler has
removed relationship traversals before this point. -/
def evalClause (d : Doc) (c : FilterClause) : Bool :=
  match c.fieldPath with
  | [f] => evalOp (getField d f) c.op c.value
  | _ => false

/-- AND-of-OR-groups boolean tree produced by BooleanTreeBuilder. -/
structure BooleanTree where
  andClauses : List FilterClause
  orGroups : List (String × List FilterClause)
deriving Repr

/-- Insert a clause into the association list of OR groups, prepending it to
its group's clause list (creating the group at the end when absent). -/
def insertGroup (gs : List (String × List FilterClause)) (g : String)
    (c : FilterClause) : List (String × List FilterClause) :=
  match gs with
  | [] => [(g, [c])]
  | (g', cs) :: rest =>
      if g' = g then (g', c :: cs) :: rest else (g', cs) :: insertGroup rest g c

/-- Modelled from the spec: BooleanTreeBuilder, grouping a flat clause list
into ungrouped (AND) clauses and named OR groups. -/
def buildTree : List FilterClause → BooleanTree
  | [] => ⟨[], []⟩
  | c :: rest =>
      let t := buildTree rest
      match c.orGroup with
      | none => ⟨c :: t.andClauses, t.orGroups⟩
      | some g => ⟨t.andClauses, insertGroup t.orGroups g c⟩

/-- Modelled from the spec: boolean-tree evaluation — every ungrouped clause
must match and every OR group must contain at least one matching clause. -/
def matchesTree (t : BooleanTree) (d : Doc) : Bool :=
  t.andClauses.all (evalClause d) && t.orGroups.all (fun p => p.2.any (evalClause d))

/-- Clauses of a flat request belonging to OR group `g`. -/
def groupClauses (cs : List FilterClause) (g : String) : List FilterClause :=
  cs.filter (fun c => decide (c.orGroup = some g))

/-- Lookup of one OR group in the built association list. -/
def findGroup (gs : List (String × List FilterClause)) (g : String) :
    Option (List FilterClause) :=
  (gs.find? (fun p => decide (p.1 = g))).map (fun p => p.2)

example : evalOp (some (.num 150)) .gte (.lit (.num 100)) = true := by decide
example : evalOp (some (.str "x")) .gt (.lit (.num 100)) = false := by decide
example : evalOp (some (.str "John")) .contains (.lit (.str "john")) = true := by decide
example : evalOp (some (.str "John")) .startswith (.lit (.str "john")) = false := by decide

theorem andClauses_buildTree (cs : List FilterClause) :
    (buildTree cs).andClauses = cs.filter (fun c => decide (c.orGroup = none)) := by
  induction cs with
  | nil => rfl
  | cons c rest ih =>
      cases h : c.orGroup with
      | none => simp [buildTree, h, ih, List.filter_cons]
      | some g => simp [buildTree, h, ih, List.filter_cons]

theorem findGroup_cons_self (g : String) (l : List FilterClause)
    (rest : List (String × List FilterClause)) :
    findGroup ((g, l) :: rest) g = some l := by
  simp [findGroup]

theorem findGroup_cons_ne (g₁ g : String) (l : List FilterClause)
    (rest : List (String × List FilterClause)) (h : g₁ ≠ g) :
    findGroup ((g₁, l) :: rest) g = findGroup rest g := by
  simp [findGroup, h]

theorem insertGroup_cons_self (g : String) (cs' : List FilterClause)
    (rest : List (String × List FilterClause)) (c : FilterClause) :
    insertGroup ((g, cs') :: rest) g c = (g, c :: cs') :: rest := by
  simp [insertGroup]

theorem insertGroup_cons_ne (g₁ g : String) (cs' : List FilterClause)
    (rest : List (String × List FilterClause)) (c : FilterClause) (h : g₁ ≠ g) :
    insertGroup ((g₁, cs') :: rest) g c = (g₁, cs') :: insertGroup rest g c := by
  simp [insertGroup, h]

theorem findGroup_insertGroup_self (gs : List (String × List FilterClause))
    (g : String) (c : FilterClause) :
    findGroup (insertGroup gs g c) g = some (c :: (findGroup gs g).getD []) := by
  induction gs with
  | nil => simp [insertGroup, findGroup]
  | cons q rest ih =>
      obtain ⟨g', cs'⟩ := q
      by_cases hg : g' = g
      · subst hg
        rw [insertGroup_cons_self, findGroup_cons_self, findGroup_cons_self]
        rfl
      · rw [insertGroup_cons_ne _ _ _ _ _ hg, findGroup_cons_ne _ _ _ _ hg,
            findGroup_cons_ne _ _ _ _ hg]
        exact ih

theorem findGroup_insertGroup_ne (gs : List (String × List FilterClause))
    (g g' : String) (c : FilterClause) (h : g' ≠ g) :
    findGroup (insertGroup gs g c) g' = findGroup gs g' := by
  have hgg : g ≠ g' := fun hh => h hh.symm
  induction gs with
  | nil => simp [insertGroup, findGroup, hgg]
  | cons q rest ih =>
      obtain ⟨g₁, cs'⟩ := q
      by_cases hg : g₁ = g
      · subst hg
        rw [insertGroup_cons_self]
        by_cases hg' : g₁ = g'
        · exact absurd hg'.symm h
        · rw [findGroup_cons_ne _ _ _ _ hg', findGroup_cons_ne _ _ _ _ hg']
      · rw [insertGroup_cons_ne _ _ _ _ _ hg]
        by_cases hg' : g₁ = g'
        · subst hg'
          rw [findGroup_cons_self, findGroup_cons_self]
        · rw [findGroup_cons_ne _ _ _ _ hg', findGroup_cons_ne _ _ _ _ hg']
          exact ih

theorem findGroup_buildTree (cs : List FilterClause) (g : String) :
    findGroup (buildTree cs).orGroups g =
      if groupClauses cs g = [] then none else some (groupClauses cs g) := by
  induction cs with
  | nil => simp [buildTree, findGroup, groupClauses]
  | cons c rest ih =>
      cases h : c.orGroup with
      | none =>
          have hne : ¬ c.orGroup = some g := by simp [h]
          simp only [buildTree, h, groupClauses, List.filter_cons]
          simp only [groupClauses] at ih
          simp [hne, ih]
      | some g₂ =>
          have hcons : groupClauses (c :: rest) g =
              if c.orGroup = some g then c :: groupClauses rest g
              else groupClauses rest g := by
            by_cases hcg : c.orGroup = some g
            · simp [groupClauses, List.filter_cons, hcg]
            · simp [groupClauses, List.filter_cons, hcg]
          by_cases hgg : g₂ = g
          · subst hgg
            simp only [buildTree, h]
            rw [findGroup_insertGroup_self, ih, hcons, if_pos h,
                if_neg (List.cons_ne_nil c (groupClauses rest g₂))]
            by_cases hrest : groupClauses rest g₂ = []
            · rw [if_pos hrest, hrest]
              rfl
            · rw [if_neg hrest]
              rfl
          · have hne : ¬ c.orGroup = some g := by simp [h, hgg]
            simp only [buildTree, h]
            rw [findGroup_insertGroup_ne _ _ _ _ (fun hh => hgg hh.symm), ih,
                hcons, if_neg hne]

theorem keys_insertGroup (gs : List (String × List FilterClause)) (g : String)
    (c : FilterClause) :
    (insertGroup gs g c).map (fun p => p.1) =
      if g ∈ gs.map (fun p => p.1) then gs.map (fun p => p.1)
      else gs.map (fun p => p.1) ++ [g] := by
  induction gs with
  | nil => simp [insertGroup]
  | cons q rest ih =>
      obtain ⟨g₁, cs'⟩ := q
      by_cases hg : g₁ = g
      · subst hg
        rw [insertGroup_cons_self]
        simp
      · have hgne : g ≠ g₁ := fun hh => hg hh.symm
        rw [insertGroup_cons_ne _ _ _ _ _ hg]
        simp only [List.map_cons, ih]
        by_cases hm : g ∈ rest.map (fun p => p.1)
        · rw [if_pos hm, if_pos (by simp [hm])]
        · rw [if_neg hm, if_neg (by simp [hm, hgne])]
          simp

theorem nodup_keys_insertGroup (gs : List (String × List FilterClause))
    (g : String) (c : FilterClause)
    (h : (gs.map (fun p => p.1)).Nodup) :
    ((insertGroup gs g c).map (fun p => p.1)).Nodup := by
  rw [keys_insertGroup]
  by_cases hm : g ∈ gs.map (fun p => p.1)
  · simp [hm, h]
  · simp [hm, List.nodup_append, h]

theorem nodup_keys_buildTree (cs : List FilterClause) :
    ((buildTree cs).orGroups.map (fun p => p.1)).Nodup := by
  induction cs with
  | nil => simp [buildTree]
  | cons c rest ih =>
      cases h : c.orGroup with
      | none => simpa [buildTree, h] using ih
      | some g =>
          simp only [buildTree, h]
          exact nodup_keys_insertGroup _ _ _ ih

theorem findGroup_of_mem (gs : List (String × List FilterClause))
    (p : String × List FilterClause)
    (h : (gs.map (fun q => q.1)).Nodup) (hp : p ∈ gs) :
    findGroup gs p.1 = some p.2 := by
  induction gs with
  | nil => cases hp
  | cons q rest ih =>
      rcases List.mem_cons.mp hp with hq | hq
      · subst hq
        simp [findGroup]
      · rw [List.map_cons, List.nodup_cons] at h
        have hne : q.1 ≠ p.1 := by
          intro he
          have hk : p.1 ∈ rest.map (fun r => r.1) :=
            List.mem_map.mpr ⟨p, hq, rfl⟩
          exact h.1 (he ▸ hk)
        have ih' := ih h.2 hq
        obtain ⟨q₁, q₂⟩ := q
        rw [findGroup_cons_ne _ _ _ _ hne]
        exact ih'

/-- C1: a document matches the compiled boolean tree iff every ungrouped
(AND) clause matches and, for every non-empty OR group of the request, at
least one clause of that group matches; a request with no clauses matches
every document. -/
theorem boolean_tree_semantics (cs : List FilterClause) (d : Doc) :
    (matchesTree (buildTree cs) d = true ↔
      ((∀ c ∈ cs, c.orGroup = none → evalClause d c = true) ∧
       (∀ g : String, (∃ c ∈ cs, c.orGroup = some g) →
          ∃ c ∈ cs, c.orGroup = some g ∧ evalClause d c = true)))
    ∧ matchesTree (buildTree []) d = true := by
  constructor
  · unfold matchesTree
    rw [Bool.and_eq_true, List.all_eq_true, List.all_eq_true]
    constructor
    · rintro ⟨hand, hor⟩
      constructor
      · intro c hc hg
        apply hand
        rw [andClauses_buildTree, List.mem_filter]
        exact ⟨hc, by simp [hg]⟩
      · intro g hg
        obtain ⟨c₀, hc₀, hgc₀⟩ := hg
        have hmem : c₀ ∈ groupClauses cs g := by
          rw [groupClauses, List.mem_filter]
          exact ⟨hc₀, by simp [hgc₀]⟩
        have hne : groupClauses cs g ≠ [] := by
          intro he
          rw [he] at hmem
          cases hmem
        have hfg : findGroup (buildTree cs).orGroups g = some (groupClauses cs g) := by
          rw [findGroup_buildTree]
          simp [hne]
        obtain ⟨p, hpfind, hpval⟩ := Option.map_eq_some'.mp hfg
        have hg1 : p.1 = g := by
          have := List.find?_some hpfind
          simpa using this
        have hpmem : p ∈ (buildTree cs).orGroups := List.mem_of_find?_eq_some hpfind
        have hany := hor p hpmem
        rw [List.any_eq_true] at hany
        obtain ⟨c, hc, hcv⟩ := hany
        rw [hpval] at hc
        rw [groupClauses, List.mem_filter] at hc
        refine ⟨c, hc.1, by simpa using hc.2, hcv⟩
    · rintro ⟨h1, h2⟩
      constructor
      · intro c hc
        rw [andClauses_buildTree, List.mem_filter] at hc
        exact h1 c hc.1 (by simpa using hc.2)
      · intro p hp
        have hfg := findGroup_of_mem _ p (nodup_keys_buildTree cs) hp
        rw [findGroup_buildTree] at hfg
        by_cases hne : groupClauses cs p.1 = []
        · simp [hne] at hfg
        · rw [if_neg hne] at hfg
          have hp2 : p.2 = groupClauses cs p.1 := (Option.some.inj hfg).symm
          obtain ⟨c₀, hc₀⟩ := List.exists_mem_of_ne_nil _ hne
          rw [groupClauses, List.mem_filter] at hc₀
          obtain ⟨c, hcmem, hcg, hcv⟩ :=
            h2 p.1 ⟨c₀, hc₀.1, by simpa using hc₀.2⟩
          rw [List.any_eq_true, hp2]
          refine ⟨c, ?_, hcv⟩
          rw [groupClauses, List.mem_filter]
          exact ⟨hcmem, by simp [hcg]⟩
  · rfl

/-- Witness for `boolean_tree_semantics` at a concrete input: the spec's P1
example — filter `status=published` AND-ed with the anonymous OR group
`featured=true OR pinned=true` matches the published featured document. -/
theorem boolean_tree_semantics_witness :
    matchesTree (buildTree
      [⟨["status"], .eq, .lit (.str "published"), none⟩,
       ⟨["featured"], .eq, .lit (.bool true), some ""⟩,
       ⟨["pinned"], .eq, .lit (.bool true), some ""⟩])
      ⟨"d1", [("status", .str "published"), ("featured", .bool true)]⟩ = true := by
  apply (boolean_tree_semantics
    [⟨["status"], .eq, .lit (.str "published"), none⟩,
     ⟨["featured"], .eq, .lit (.bool true), some ""⟩,
     ⟨["pinned"], .eq, .lit (.bool true), some ""⟩]
    ⟨"d1", [("status", .str "published"), ("featured", .bool true)]⟩).1.mpr
  constructor
  · intro c hc hg
    rcases List.mem_cons.mp hc with rfl | hc2
    · decide
    · rcases List.mem_cons.mp hc2 with rfl | hc3
      · cases hg
      · rcases List.mem_cons.mp hc3 with rfl | hc4
        · cases hg
        · cases hc4
  · intro g hg
    obtain ⟨c, hc, hcg⟩ := hg
    have hgeq : g = "" := by
      rcases List.mem_cons.mp hc with rfl | hc2
      · cases hcg
      · rcases List.mem_cons.mp hc2 with rfl | hc3
        · exact (Option.some.inj hcg).symm
        · rcases List.mem_cons.mp hc3 with rfl | hc4
          · exact (Option.some.inj hcg).symm
          · cases hc4
    subst hgeq
    exact ⟨⟨["featured"], .eq, .lit (.bool true), some ""⟩,
      List.mem_cons_of_mem _ (List.mem_cons_self _ _), rfl, by decide⟩

/-- Boolean suffix test on strings. -/
def strEndsWithB (s t : String) : Bool :=
  decide (t.data.length ≤ s.data.length) &&
  decide (s.data.drop (s.data.length - t.data.length) = t.data)

/-- Drop the last `n` characters of a string. -/
def dropSuffixStr (s : String) (n : Nat) : String :=
  String.mk (s.data.take (s.data.length - n))

theorem strEndsWithB_iff (s t : String) :
    strEndsWithB s t = true ↔
      t.data.length ≤ s.data.length ∧
      s.data.drop (s.data.length - t.data.length) = t.data := by
  simp [strEndsWithB]

theorem dropSuffixStr_append_of_strEndsWithB (s t : String)
    (h : strEndsWithB s t = true) :
    dropSuffixStr s t.data.length ++ t = s := by
  obtain ⟨h1, h2⟩ := (strEndsWithB_iff s t).mp h
  apply String.ext
  rw [String.data_append]
  show s.data.take (s.data.length - t.data.length) ++ t.data = s.data
  rw [show s.data.take (s.data.length - t.data.length) ++ t.data =
      s.data.take (s.data.length - t.data.length) ++
        s.data.drop (s.data.length - t.data.length) from by rw [h2]]
  exact List.take_append_drop _ _

/-- Vowel test used by the simple pluralization rules. -/
def isVowel (c : Char) : Bool :=
  ['a', 'e', 'i', 'o', 'u'].contains c

/-- Modelled from the spec: simple English pluralization used by
RelationshipResolver (the documentation records `author` → `authors` and
`category` → `categories`). -/
def pluralize (s : String) : String :=
  if strEndsWithB s "s" || strEndsWithB s "x" || strEndsWithB s "z" ||
     strEndsWithB s "ch" || strEndsWithB s "sh" then s ++ "es"
  else
    match s.data.reverse with
    | 'y' :: c :: _ => if isVowel c then s ++ "s" else dropSuffixStr s 1 ++ "ies"
    | _ => s ++ "s"

/-- Reserved pseudo-collection aliases naming the built-in user entity. -/
def reservedUserAliases : List String :=
  ["users", "app_users", "appusers"]

/-- Target kind of a relationship: built-in user entity or named collection. -/
inductive TargetKind where
  | user
  | collection
deriving DecidableEq, Repr

/-- Cardinality of a relationship field. -/
inductive Cardinality where
  | single
  | many
deriving DecidableEq, Repr

/-- Derived relationship descriptor computed on demand by the resolver. -/
structure RelationshipDescriptor where
  sourceField : String
  cardinality : Cardinality
  targetKind : TargetKind
  targetName : String
deriving DecidableEq, Repr

/-- Modelled from the spec: documented auto-detection target choice — reserved
user alias first, then an existing collection of that name, then fallback to
the user entity. -/
def resolveTarget (collections : List String) (plural : String) :
    TargetKind × String :=
  if plural ∈ reservedUserAliases then (.user, plural)
  else if plural ∈ collections then (.collection, plural)
  else (.user, plural)

/-- Modelled from the spec: RelationshipResolver — only `{name}_id` (single)
and `{name}_ids` (many) fields denote relationships; every other field
resolves to `none` and is treated as a plain field. -/
def resolve (collections : List String) (field : String) :
    Option RelationshipDescriptor :=
  if strEndsWithB field "_ids" then
    let p := pluralize (dropSuffixStr field 4)
    some ⟨field, .many, (resolveTarget collections p).1, (resolveTarget collections p).2⟩
  else if strEndsWithB field "_id" then
    let p := pluralize (dropSuffixStr field 3)
    some ⟨field, .single, (resolveTarget collections p).1, (resolveTarget collections p).2⟩
  else none

example : pluralize "author" = "authors" := by decide
example : pluralize "category" = "categories" := by decide
example : pluralize "app_user" = "app_users" := by decide
example : resolve ["categories"] "category_id" =
    some ⟨"category_id", .single, .collection, "categories"⟩ := by decide
example : resolve ["posts"] "author_id" =
    some ⟨"author_id", .single, .user, "authors"⟩ := by decide
example : resolve ["posts"] "tag_ids" =
    some ⟨"tag_ids", .many, .user, "tags"⟩ := by decide
example : resolve ["posts"] "title" = none := by decide

theorem resolveTarget_snd (collections : List String) (p : String) :
    (resolveTarget collections p).2 = p := by
  unfold resolveTarget
  split_ifs <;> rfl

theorem resolveTarget_fst_reserved (collections : List String) (p : String)
    (h : p ∈ reservedUserAliases) :
    (resolveTarget collections p).1 = .user := by
  simp [resolveTarget, h]

theorem resolveTarget_fst_collection (collections : List String) (p : String)
    (h1 : p ∉ reservedUserAliases) (h2 : p ∈ collections) :
    (resolveTarget collections p).1 = .collection := by
  simp [resolveTarget, h1, h2]

theorem resolveTarget_fst_fallback (collections : List String) (p : String)
    (h1 : p ∉ reservedUserAliases) (h2 : p ∉ collections) :
    (resolveTarget collections p).1 = .user := by
  simp [resolveTarget, h1, h2]

/-- C2: a field resolves to a relationship descriptor exactly when it ends in
`_id` (cardinality single) or `_ids` (cardinality many); the base name is
pluralized, then the reserved user aliases take priority, then an existing
collection of the pluralized name, then the fallback to the user entity;
fields without the suffix resolve to `none`. -/
theorem relationship_resolver_spec (collections : List String) (field : String) :
    ((resolve collections field).isSome ↔
      (strEndsWithB field "_id" = true ∨ strEndsWithB field "_ids" = true))
    ∧ (∀ d : RelationshipDescriptor, resolve collections field = some d →
        d.sourceField = field
        ∧ (strEndsWithB field "_ids" = true →
            d.cardinality = .many ∧
            d.targetName = pluralize (dropSuffixStr field 4))
        ∧ (strEndsWithB field "_ids" = false → strEndsWithB field "_id" = true →
            d.cardinality = .single ∧
            d.targetName = pluralize (dropSuffixStr field 3))
        ∧ (d.targetName ∈ reservedUserAliases → d.targetKind = .user)
        ∧ (d.targetName ∉ reservedUserAliases → d.targetName ∈ collections →
            d.targetKind = .collection)
        ∧ (d.targetName ∉ reservedUserAliases → d.targetName ∉ collections →
            d.targetKind = .user)) := by
  constructor
  · unfold resolve
    by_cases h4 : strEndsWithB field "_ids" = true
    · simp [h4]
    · by_cases h3 : strEndsWithB field "_id" = true
      · simp [h4, h3]
      · simp [h4, h3]
  · intro d hd
    unfold resolve at hd
    by_cases h4 : strEndsWithB field "_ids" = true
    · rw [if_pos h4] at hd
      obtain rfl := (Option.some.inj hd).symm
      set p := pluralize (dropSuffixStr field 4) with hp
      refine ⟨rfl, fun _ => ⟨rfl, resolveTarget_snd _ _⟩, ?_, ?_, ?_, ?_⟩
      · intro hfalse _
        rw [h4] at hfalse
        cases hfalse
      · intro hmem
        rw [resolveTarget_snd] at hmem
        exact resolveTarget_fst_reserved _ _ hmem
      · intro hmem hcoll
        rw [resolveTarget_snd] at hmem hcoll
        exact resolveTarget_fst_collection _ _ hmem hcoll
      · intro hmem hcoll
        rw [resolveTarget_snd] at hmem hcoll
        exact resolveTarget_fst_fallback _ _ hmem hcoll
    · rw [if_neg h4] at hd
      by_cases h3 : strEndsWithB field "_id" = true
      · rw [if_pos h3] at hd
        obtain rfl := (Option.some.inj hd).symm
        refine ⟨rfl, ?_, fun _ _ => ⟨rfl, resolveTarget_snd _ _⟩, ?_, ?_, ?_⟩
        · intro htrue
          exact absurd htrue h4
        · intro hmem
          rw [resolveTarget_snd] at hmem
          exact resolveTarget_fst_reserved _ _ hmem
        · intro hmem hcoll
          rw [resolveTarget_snd] at hmem hcoll
          exact resolveTarget_fst_collection _ _ hmem hcoll
        · intro hmem hcoll
          rw [resolveTarget_snd] at hmem hcoll
          exact resolveTarget_fst_fallback _ _ hmem hcoll
      · rw [if_neg h3] at hd
        cases hd

/-- Witness for `relationship_resolver_spec` at a concrete input: the field
`category_id` against a store containing a `categories` collection. -/
theorem relationship_resolver_spec_witness :
    (resolve ["categories"] "category_id").isSome
    ∧ (∀ d, resolve ["categories"] "category_id" = some d →
        d.targetKind = TargetKind.collection) := by
  have h := relationship_resolver_spec ["categories"] "category_id"
  refine ⟨h.1.mpr (Or.inl (by decide)), fun d hd => ?_⟩
  have h5 := (h.2 d hd).2.2.2.2.1
  have hname : d.targetName = "categories" := by
    have := ((h.2 d hd).2.2.1 (by decide) (by decide)).2
    rw [this]
    decide
  apply h5 <;> rw [hname]
  · decide
  · decide

/-- Operator suffix attached to raw filter keys, from the documented suffix
tables. -/
def opSuffix : OperatorKind → String
  | .eq => "_eq"
  | .ne => "_ne"
  | .gt => "_gt"
  | .gte => "_gte"
  | .lt => "_lt"
  | .lte => "_lte"
  | .contains => "_contains"
  | .icontains => "_icontains"
  | .startswith => "_startswith"
  | .istartswith => "_istartswith"
  | .endswith => "_endswith"
  | .iendswith => "_iendswith"
  | .in_ => "_in"
  | .notin => "_notin"
  | .isnull => "_isnull"

/-- Enumeration of every operator kind, in table order. -/
def operatorList : List OperatorKind :=
  [.eq, .ne, .gt, .gte, .lt, .lte,
   .contains, .icontains, .startswith, .istartswith, .endswith, .iendswith,
   .in_, .notin, .isnull]

/-- Operator kinds whose suffix matches the end of the raw key. -/
def matchingOps (key : String) : List OperatorKind :=
  operatorList.filter (fun op => strEndsWithB key (opSuffix op))

/-- Choice of the operator with the longest suffix among candidates. -/
def pickLongest : List OperatorKind → Option OperatorKind
  | [] => none
  | op :: rest =>
      match pickLongest rest with
      | none => some op
      | some o =>
          if (opSuffix o).data.length < (opSuffix op).data.length then some op
          else some o

/-- Modelled from the spec: FilterParser's key splitting — the key is split on
the last matching known operator suffix, by longest-suffix match against the
OperatorKind enum; when no suffix matches the operator defaults to `eq`. -/
def splitOpSuffix (key : String) : String × OperatorKind :=
  match pickLongest (matchingOps key) with
  | none => (key, .eq)
  | some op => (dropSuffixStr key (opSuffix op).data.length, op)

/-- Parse failure raised by FilterParser. -/
inductive ParseError where
  | malformedOrMarker
deriving DecidableEq, Repr

/-- Boolean prefix test on strings. -/
def strStartsWithB (s t : String) : Bool :=
  isPrefixB t.data s.data

/-- Drop the first `n` characters of a string. -/
def dropPrefixStr (s : String) (n : Nat) : String :=
  String.mk (s.data.drop n)

/-- Split a character list at the first occurrence of `ch`, returning the part
before it and the part after it; `none` when `ch` does not occur. -/
def splitAtChar (cs : List Char) (ch : Char) : Option (List Char × List Char) :=
  match cs with
  | [] => none
  | c :: rest =>
      if c = ch then some ([], rest)
      else (splitAtChar rest ch).map (fun p => (c :: p.1, p.2))

/-- Modelled from the spec: FilterParser's leading OR-marker detection —
`[or]` yields the anonymous group, `[or:NAME]` the named group `NAME`, absence
yields an ungrouped clause, and a malformed marker is a `ParseError`. -/
def stripOrMarker (key : String) : Except ParseError (Option String × String) :=
  if strStartsWithB key "[or:" then
    match splitAtChar (key.data.drop 4) ']' with
    | none => .error .malformedOrMarker
    | some (name, rest) => .ok (some (String.mk name), String.mk rest)
  else if strStartsWithB key "[or]" then
    .ok (some "", dropPrefixStr key 4)
  else if strStartsWithB key "[" then
    .error .malformedOrMarker
  else
    .ok (none, key)

example : splitOpSuffix "age_gte" = ("age", .gte) := by decide
example : splitOpSuffix "status" = ("status", .eq) := by decide
example : splitOpSuffix "name_icontains" = ("name", .icontains) := by decide

theorem pickLongest_none_iff (l : List OperatorKind) :
    pickLongest l = none ↔ l = [] := by
  induction l with
  | nil => simp [pickLongest]
  | cons op rest ih =>
      simp only [pickLongest]
      cases h : pickLongest rest with
      | none => simp
      | some o =>
          dsimp only
          split_ifs <;> simp

theorem pickLongest_mem (l : List OperatorKind) :
    ∀ b, pickLongest l = some b → b ∈ l := by
  induction l with
  | nil => intro b h; cases h
  | cons op rest ih =>
      intro b h
      simp only [pickLongest] at h
      cases hr : pickLongest rest with
      | none =>
          rw [hr] at h
          obtain rfl := Option.some.inj h
          exact List.mem_cons_self op rest
      | some o =>
          rw [hr] at h
          dsimp only at h
          split_ifs at h
          · obtain rfl := Option.some.inj h
            exact List.mem_cons_self op rest
          · obtain rfl := Option.some.inj h
            exact List.mem_cons_of_mem op (ih o hr)

theorem pickLongest_maxlen (l : List OperatorKind) :
    ∀ b, pickLongest l = some b →
      ∀ o ∈ l, (opSuffix o).data.length ≤ (opSuffix b).data.length := by
  induction l with
  | nil => intro b h; cases h
  | cons op rest ih =>
      intro b h o ho
      simp only [pickLongest] at h
      cases hr : pickLongest rest with
      | none =>
          rw [hr] at h
          obtain rfl := Option.some.inj h
          rcases List.mem_cons.mp ho with rfl | ho'
          · exact le_refl _
          · rw [pickLongest_none_iff] at hr
            rw [hr] at ho'
            cases ho'
      | some o₂ =>
          rw [hr] at h
          dsimp only at h
          have hrest := ih o₂ hr
          split_ifs at h with hlen
          · obtain rfl := Option.some.inj h
            rcases List.mem_cons.mp ho with rfl | ho'
            · exact le_refl _
            · exact le_trans (hrest o ho') (le_of_lt hlen)
          · obtain rfl := Option.some.inj h
            rcases List.mem_cons.mp ho with rfl | ho'
            · omega
            · exact hrest o ho'

/-- C7: after stripping the OR marker, the raw key is split on the last
matching operator suffix by longest-suffix match against the OperatorKind
enum (so `name__or__email_contains` is not mis-split); with no matching
suffix the operator defaults to `eq`.  OR markers `[or]` / `[or:NAME]` are
stripped off the front of the key. -/
theorem filter_key_splitting (key : String) :
    ((∀ op ∈ operatorList, strEndsWithB key (opSuffix op) = false) →
        splitOpSuffix key = (key, OperatorKind.eq))
    ∧ (∀ op ∈ operatorList, strEndsWithB key (opSuffix op) = true →
        strEndsWithB key (opSuffix (splitOpSuffix key).2) = true
        ∧ (splitOpSuffix key).1 ++ opSuffix (splitOpSuffix key).2 = key
        ∧ (opSuffix op).data.length ≤ (opSuffix (splitOpSuffix key).2).data.length)
    ∧ splitOpSuffix "name__or__email_contains" = ("name__or__email", .contains)
    ∧ stripOrMarker "[or]age_gte" = .ok (some "", "age_gte")
    ∧ stripOrMarker "[or:cats]category" = .ok (some "cats", "category")
    ∧ stripOrMarker "age_gte" = .ok (none, "age_gte")
    ∧ stripOrMarker "[or:cats" = .error .malformedOrMarker := by
  refine ⟨?_, ?_, by decide, by rfl, by rfl, by rfl, by rfl⟩
  · intro hall
    have hm : matchingOps key = [] := by
      unfold matchingOps
      rw [List.filter_eq_nil_iff]
      intro op hop
      simp [hall op hop]
    unfold splitOpSuffix
    rw [hm]
    rfl
  · intro op hop hends
    have hmem : op ∈ matchingOps key :=
      List.mem_filter.mpr ⟨hop, hends⟩
    obtain ⟨b, hb⟩ : ∃ b, pickLongest (matchingOps key) = some b := by
      cases hpl : pickLongest (matchingOps key) with
      | none =>
          rw [pickLongest_none_iff] at hpl
          rw [hpl] at hmem
          cases hmem
      | some b => exact ⟨b, rfl⟩
    have hsplit : splitOpSuffix key =
        (dropSuffixStr key (opSuffix b).data.length, b) := by
      unfold splitOpSuffix
      rw [hb]
    have hbmem := pickLongest_mem _ b hb
    have hbends : strEndsWithB key (opSuffix b) = true :=
      (List.mem_filter.mp hbmem).2
    rw [hsplit]
    exact ⟨hbends, dropSuffixStr_append_of_strEndsWithB _ _ hbends,
      pickLongest_maxlen _ b hb op hmem⟩

/-- Witness for `filter_key_splitting` at a concrete input: the key
`age_gte` matches the `_gte` suffix and splits into field `age` and
operator `gte`. -/
theorem filter_key_splitting_witness :
    OperatorKind.gte ∈ operatorList
    ∧ strEndsWithB "age_gte" (opSuffix .gte) = true
    ∧ (splitOpSuffix "age_gte").1 ++ opSuffix (splitOpSuffix "age_gte").2 = "age_gte" := by
  refine ⟨by decide, by decide, ?_⟩
  exact ((filter_key_splitting "age_gte").2.1 .gte (by decide) (by decide)).2.1

/-- C8 counterexample: the claim that the `contains` operator compares
case-sensitively fails — per the documented ILIKE semantics a stored value
`"John"` matches a `contains "john"` clause despite the case difference. -/
theorem contains_case_sensitivity_counterexample :
    evalOp (some (.str "John")) .contains (.lit (.str "john")) = true := by
  decide

/-- C8 (amended): `contains` compares case-insensitively (ILIKE), agreeing
with `icontains` on every input, while `startswith` / `endswith` compare
case-sensitively and only their `istartswith` / `iendswith` variants are
case-insensitive. -/
theorem string_operator_case_sensitivity :
    (∀ stored : Option Value, ∀ v : ClauseVal,
        evalOp stored .contains v = evalOp stored .icontains v)
    ∧ evalOp (some (.str "John")) .startswith (.lit (.str "john")) = false
    ∧ evalOp (some (.str "John")) .istartswith (.lit (.str "john")) = true
    ∧ evalOp (some (.str "John")) .endswith (.lit (.str "OHN")) = false
    ∧ evalOp (some (.str "John")) .iendswith (.lit (.str "OHN")) = true := by
  refine ⟨?_, by decide, by decide, by decide, by decide⟩
  intro stored v
  cases stored with
  | none => rfl
  | some w =>
      cases v with
      | lit x => cases w <;> cases x <;> rfl
      | litList xs => cases w <;> rfl

/-- Numeric-typed stored value test. -/
def isNumV : Option Value → Bool
  | some (.num _) => true
  | _ => false

/-- C9: numeric comparison operators evaluate to `false` (not an error) when
the stored value is not numeric, so clause evaluation is total over
arbitrarily typed document data. -/
theorem numeric_mismatch_is_false (stored : Option Value) (op : OperatorKind)
    (v : ClauseVal)
    (hop : op = .gt ∨ op = .gte ∨ op = .lt ∨ op = .lte)
    (hnum : isNumV stored = false) :
    evalOp stored op v = false := by
  cases stored with
  | none => rcases hop with rfl | rfl | rfl | rfl <;> rfl
  | some w =>
      cases w with
      | num n => simp [isNumV] at hnum
      | str s =>
          rcases hop with rfl | rfl | rfl | rfl <;>
            (cases v with
             | lit x => cases x <;> rfl
             | litList xs => rfl)
      | bool b =>
          rcases hop with rfl | rfl | rfl | rfl <;>
            (cases v with
             | lit x => cases x <;> rfl
             | litList xs => rfl)
      | null =>
          rcases hop with rfl | rfl | rfl | rfl <;>
            (cases v with
             | lit x => cases x <;> rfl
             | litList xs => rfl)
      | strList ss =>
          rcases hop with rfl | rfl | rfl | rfl <;>
            (cases v with
             | lit x => cases x <;> rfl
             | litList xs => rfl)

/-- Witness for `numeric_mismatch_is_false`: a `gt` comparison against a
stored string evaluates to `false`. -/
theorem numeric_mismatch_is_false_witness :
    (OperatorKind.gt = .gt ∨ OperatorKind.gt = .gte ∨ OperatorKind.gt = .lt ∨
      OperatorKind.gt = .lte)
    ∧ isNumV (some (.str "hello")) = false
    ∧ evalOp (some (.str "hello")) .gt (.lit (.num 10)) = false :=
  ⟨Or.inl rfl, by decide,
    numeric_mismatch_is_false (some (.str "hello")) .gt (.lit (.num 10))
      (Or.inl rfl) (by decide)⟩

/-- Executor configuration: the documented pagination knobs.  The maximum is
a configured value, not a hardcoded constant. -/
structure ExecConfig where
  maxLimit : Nat
  defaultLimit : Nat
deriving DecidableEq, Repr

/-- Documented pagination configuration of collection document listing
(docs/api/collections.md pagination table: default 50, max 500). -/
def collectionListingConfig : ExecConfig :=
  ⟨500, 50⟩

/-- Modelled from the spec: the effective limit is the requested limit
clamped to the configured maximum. -/
def effectiveLimit (cfg : ExecConfig) (l : Nat) : Nat :=
  min l cfg.maxLimit

/-- Rank used to order heterogeneously typed values deterministically. -/
def valRank : Value → Nat
  | .null => 0
  | .bool _ => 1
  | .num _ => 2
  | .str _ => 3
  | .strList _ => 4

/-- Deterministic comparison of stored values for sorting. -/
def valCmp (a b : Value) : Ordering :=
  match a, b with
  | .bool x, .bool y => compare x y
  | .num x, .num y => compare x y
  | .str x, .str y => compare x y
  | _, _ => compare (valRank a) (valRank b)

/-- Comparison of optional sort keys; absent fields sort first. -/
def optValCmp : Option Value → Option Value → Ordering
  | none, none => .eq
  | none, some _ => .lt
  | some _, none => .gt
  | some a, some b => valCmp a b

/-- Modelled from the spec: document comparison for sorting — the sort key
first (reversed for descending order), with ties broken by document id
ascending so pagination is deterministic. -/
def docCmp (sortField : Option String) (descend : Bool) (d1 d2 : Doc) :
    Ordering :=
  let c :=
    match sortField with
    | none => Ordering.eq
    | some f => optValCmp (getField d1 f) (getField d2 f)
  let c' := if descend then c.swap else c
  match c' with
  | .eq => compare d1.id d2.id
  | o => o

/-- Compiled query request consumed by QueryExecutor. -/
structure QueryRequest where
  collection : String
  clauses : List FilterClause
  sortField : Option String
  descend : Bool
  limit : Nat
  offset : Nat
deriving Repr

/-- Query result page. -/
structure QueryResult where
  data : List Doc
  total : Option Nat
  limit : Nat
  offset : Nat
  hasMore : Bool
deriving Repr

/-- Stable sort of the filtered documents by the requested sort key. -/
def sortDocs (req : QueryRequest) (docs : List Doc) : List Doc :=
  docs.mergeSort
    (fun d1 d2 => decide (docCmp req.sortField req.descend d1 d2 ≠ Ordering.gt))

/-- Full filtered-and-sorted result, before offset and limit. -/
def fullSorted (req : QueryRequest) (docs : List Doc) : List Doc :=
  sortDocs req (docs.filter (matchesTree (buildTree req.clauses)))

/-- Modelled from the spec: QueryExecutor — evaluate the compiled boolean
tree, sort, then apply offset and the clamped limit; `countTotal = false`
skips the total-count pass. -/
def executeQuery (cfg : ExecConfig) (docs : List Doc) (req : QueryRequest)
    (countTotal : Bool) : QueryResult :=
  let full := fullSorted req docs
  let lim := effectiveLimit cfg req.limit
  let page := (full.drop req.offset).take lim
  ⟨page, if countTotal then some full.length else none, lim, req.offset,
    decide (req.offset + page.length < full.length)⟩

/-- Copy of a request with a new limit and offset (other fields unchanged). -/
def setPage (req : QueryRequest) (lim off : Nat) : QueryRequest :=
  ⟨req.collection, req.clauses, req.sortField, req.descend, lim, off⟩

/-- C5: the effective limit applied by QueryExecutor is the requested limit
clamped to the configured maximum, and the returned page never exceeds it;
for collection document listing the documented configuration is maximum 500
with default 50. -/
theorem limit_clamping (cfg : ExecConfig) (docs : List Doc)
    (req : QueryRequest) (ct : Bool) :
    (executeQuery cfg docs req ct).data.length ≤ min req.limit cfg.maxLimit
    ∧ (executeQuery cfg docs req ct).limit = min req.limit cfg.maxLimit
    ∧ (req.limit ≤ cfg.maxLimit → (executeQuery cfg docs req ct).limit = req.limit)
    ∧ collectionListingConfig.maxLimit = 500
    ∧ collectionListingConfig.defaultLimit = 50 := by
  refine ⟨?_, rfl, ?_, rfl, rfl⟩
  · show (((fullSorted req docs).drop req.offset).take
        (effectiveLimit cfg req.limit)).length ≤ min req.limit cfg.maxLimit
    rw [List.length_take]
    exact min_le_left _ _
  · intro h
    show effectiveLimit cfg req.limit = req.limit
    exact min_eq_left h

/-- Witness for `limit_clamping`: a requested limit of 20 under the
collection-listing configuration stays at 20. -/
theorem limit_clamping_witness :
    (20 ≤ collectionListingConfig.maxLimit)
    ∧ (executeQuery collectionListingConfig []
        ⟨"products", [], none, false, 20, 0⟩ true).limit = 20 :=
  ⟨by decide,
    (limit_clamping collectionListingConfig []
      ⟨"products", [], none, false, 20, 0⟩ true).2.2.1 (by decide)⟩

theorem flatMap_take_drop {α : Type} (k : Nat) :
    ∀ (n : Nat) (l : List α), l.length ≤ n * k →
      (List.range n).flatMap (fun i => (l.drop (i * k)).take k) = l := by
  intro n
  induction n with
  | zero =>
      intro l hl
      simp only [Nat.zero_mul, Nat.le_zero] at hl
      rw [List.eq_nil_of_length_eq_zero hl]
      rfl
  | succ n ih =>
      intro l hl
      rw [List.range_succ_eq_map, List.flatMap_cons, List.flatMap_map]
      simp only [Nat.zero_mul, List.drop_zero]
      have hterm : ∀ i : Nat,
          (l.drop (Nat.succ i * k)).take k
            = ((l.drop k).drop (i * k)).take k := by
        intro i
        rw [List.drop_drop, Nat.succ_mul, Nat.add_comm]
      have hmap :
          (List.range n).flatMap (fun i => (l.drop (Nat.succ i * k)).take k)
            = (List.range n).flatMap (fun i => ((l.drop k).drop (i * k)).take k) := by
        apply List.flatMap_congr
        intro i _
        exact hterm i
      rw [hmap, ih (l.drop k)
        (by
          rw [List.length_drop]
          have hs1 : (n + 1) * k = n * k + k := by ring
          have hs2 : Nat.succ n * k = n * k + k := by rw [Nat.succ_mul]
          omega)]
      exact List.take_append_drop k l

theorem ceil_div_mul_le (t k : Nat) (hk : 0 < k) :
    t ≤ ((t + k - 1) / k) * k := by
  have h1 := Nat.div_add_mod (t + k - 1) k
  have h2 : (t + k - 1) % k < k := Nat.mod_lt _ hk
  rw [Nat.mul_comm]
  omega

/-- C6: for a fixed query against an unchanged store, the pages
`offset = 0, k, 2k, …` of size `k` concatenate to exactly the full
unpaginated sorted result, with no document duplicated and none missing. -/
theorem pagination_partition (cfg : ExecConfig) (docs : List Doc)
    (req : QueryRequest) (k : Nat) (hk : 0 < k) (hmax : k ≤ cfg.maxLimit) :
    ((List.range (((fullSorted req docs).length + k - 1) / k)).flatMap
        (fun i => (executeQuery cfg docs (setPage req k (i * k)) false).data)
      = fullSorted req docs)
    ∧ (((fullSorted req docs).map (fun d => d.id)).Nodup →
        (((List.range (((fullSorted req docs).length + k - 1) / k)).flatMap
            (fun i => (executeQuery cfg docs (setPage req k (i * k)) false).data)).map
          (fun d => d.id)).Nodup) := by
  have hpage : ∀ i : Nat,
      (executeQuery cfg docs (setPage req k (i * k)) false).data
        = ((fullSorted req docs).drop (i * k)).take k := by
    intro i
    show ((fullSorted (setPage req k (i * k)) docs).drop (i * k)).take
        (effectiveLimit cfg k) = ((fullSorted req docs).drop (i * k)).take k
    have hfull : fullSorted (setPage req k (i * k)) docs = fullSorted req docs := rfl
    rw [hfull, show effectiveLimit cfg k = k from min_eq_left hmax]
  have hmain :
      (List.range (((fullSorted req docs).length + k - 1) / k)).flatMap
        (fun i => (executeQuery cfg docs (setPage req k (i * k)) false).data)
      = fullSorted req docs := by
    have hcongr :
        (List.range (((fullSorted req docs).length + k - 1) / k)).flatMap
          (fun i => (executeQuery cfg docs (setPage req k (i * k)) false).data)
        = (List.range (((fullSorted req docs).length + k - 1) / k)).flatMap
            (fun i => ((fullSorted req docs).drop (i * k)).take k) := by
      apply List.flatMap_congr
      intro i _
      exact hpage i
    rw [hcongr]
    exact flatMap_take_drop k _ (fullSorted req docs)
      (ceil_div_mul_le _ k hk)
  refine ⟨hmain, ?_⟩
  intro h
  rw [hmain]
  exact h

/-- Witness for `pagination_partition`: three documents paged two at a time
under the collection-listing configuration. -/
theorem pagination_partition_witness :
    (0 < 2 ∧ 2 ≤ collectionListingConfig.maxLimit)
    ∧ ((List.range
          (((fullSorted ⟨"posts", [], none, false, 10, 0⟩
              [⟨"p1", []⟩, ⟨"p2", []⟩, ⟨"p3", []⟩]).length + 2 - 1) / 2)).flatMap
        (fun i => (executeQuery collectionListingConfig
            [⟨"p1", []⟩, ⟨"p2", []⟩, ⟨"p3", []⟩]
            (setPage ⟨"posts", [], none, false, 10, 0⟩ 2 (i * 2)) false).data)
      = fullSorted ⟨"posts", [], none, false, 10, 0⟩
          [⟨"p1", []⟩, ⟨"p2", []⟩, ⟨"p3", []⟩]) :=
  ⟨⟨by decide, by decide⟩,
    (pagination_partition collectionListingConfig
      [⟨"p1", []⟩, ⟨"p2", []⟩, ⟨"p3", []⟩]
      ⟨"posts", [], none, false, 10, 0⟩ 2 (by decide) (by decide)).1⟩

/-- Document store: named collections plus the built-in user entity set. -/
structure Store where
  collections : List (String × List Doc)
  users : List Doc
deriving Repr

/-- Documents of a named collection (empty when the collection is absent). -/
def docsOf (st : Store) (name : String) : List Doc :=
  ((st.collections.find? (fun p => decide (p.1 = name))).map (fun p => p.2)).getD []

/-- Names of the collections existing in the store. -/
def collectionNames (st : Store) : List String :=
  st.collections.map (fun p => p.1)

/-- Entity set referenced by a relationship target. -/
def targetDocs (st : Store) : TargetKind → String → List Doc
  | .user, _ => st.users
  | .collection, name => docsOf st name

/-- Entity set a relation name points at, through RelationshipResolver
applied to its `{rel}_id` foreign-key field. -/
def relTarget (st : Store) (rel : String) : List Doc :=
  match resolve (collectionNames st) (rel ++ "_id") with
  | some d => targetDocs st d.targetKind d.targetName
  | none => []

/-- Store read interface: single-entity lookup by id. -/
def lookupById (docs : List Doc) (i : String) : Option Doc :=
  docs.find? (fun d => decide (d.id = i))

/-- Store read interface: batch fetch of the documents with the given ids. -/
def fetchByIds (docs : List Doc) (ids : List String) : List Doc :=
  docs.filter (fun d => ids.contains d.id)

/-- Modelled from the spec: QueryCompiler's rewrite of a relationship-
qualified clause (`rel.inner op v`) into a resolvable-id clause on the root
entity — a sub-query against the resolved target collects the matching
target ids and the clause becomes `{rel}_id in (ids)`. -/
def compileRelClause (st : Store) (c : FilterClause) : FilterClause :=
  match c.fieldPath with
  | [rel, inner] =>
      let tdocs := relTarget st rel
      let matched := tdocs.filter (fun t => evalOp (getField t inner) c.op c.value)
      ⟨[rel ++ "_id"], .in_, .litList (matched.map (fun t => .str t.id)), c.orGroup⟩
  | _ => c

/-- Hydrated value attached under a relation name by PopulationEngine. -/
inductive RelVal where
  | one (e : Option Doc)
  | many (es : List Doc)
deriving Repr

/-- Root document carrying its hydrated relations alongside the unchanged
base document (so every original field, foreign keys included, is kept). -/
structure PopulatedDoc where
  base : Doc
  relations : List (String × RelVal)
deriving Repr

/-- Single foreign-key id stored under `{rel}_id`. -/
def fkSingleIds (d : Doc) (field : String) : List String :=
  match getField d field with
  | some (.str s) => [s]
  | _ => []

/-- Foreign-key id array stored under `{rel}_ids`. -/
def fkManyIds (d : Doc) (field : String) : List String :=
  match getField d field with
  | some (.strList ss) => ss
  | _ => []

/-- Distinct foreign-key ids referenced by a page for one relation name,
collected for the single batch fetch. -/
def pageIds (rel : String) (page : List PopulatedDoc) : List String :=
  (page.flatMap (fun p =>
      fkSingleIds p.base (rel ++ "_id") ++ fkManyIds p.base (rel ++ "_ids"))).dedup

/-- Hydrated value for one base document, looked up in the batch-fetched
entities of the page. -/
def hydrateFor (st : Store) (rel : String) (page : List PopulatedDoc)
    (b : Doc) : RelVal :=
  let fetched := fetchByIds (relTarget st rel) (pageIds rel page)
  match getField b (rel ++ "_id") with
  | some (.str s) => RelVal.one (lookupById fetched s)
  | _ =>
      match getField b (rel ++ "_ids") with
      | some (.strList ss) => RelVal.many (ss.filterMap (lookupById fetched))
      | _ => RelVal.one none

/-- Modelled from the spec: PopulationEngine's hydration of one relation name
over a page — all distinct referenced ids are collected, batch-fetched from
the resolved target in one query, and the fetched entity (or entity array)
is attached under the relation name on each page document. -/
def populateRelation (st : Store) (rel : String) (page : List PopulatedDoc) :
    List PopulatedDoc :=
  page.map (fun p =>
    ⟨p.base, p.relations ++ [(rel, hydrateFor st rel page p.base)]⟩)

/-- Modelled from the spec: PopulationEngine over a list of requested
relation names, hydrating them one after the other onto the query page. -/
def populateAll (st : Store) (specs : List String) (page : List Doc) :
    List PopulatedDoc :=
  specs.foldl (fun acc rel => populateRelation st rel acc)
    (page.map (fun d => ⟨d, []⟩))

theorem populateRelation_base (st : Store) (rel : String)
    (page : List PopulatedDoc) :
    (populateRelation st rel page).map (fun p => p.base)
      = page.map (fun p => p.base) := by
  unfold populateRelation
  rw [List.map_map]
  rfl

theorem populateAll_base (st : Store) (specs : List String) :
    ∀ acc : List PopulatedDoc,
      ((specs.foldl (fun acc rel => populateRelation st rel acc) acc).map
          (fun p => p.base))
        = acc.map (fun p => p.base) := by
  induction specs with
  | nil => intro acc; rfl
  | cons rel rest ih =>
      intro acc
      rw [List.foldl_cons, ih (populateRelation st rel acc),
        populateRelation_base]

theorem populateAll_keys (st : Store) (specs : List String) :
    ∀ (acc : List PopulatedDoc) (done : List String),
      (∀ p ∈ acc, p.relations.map (fun r => r.1) = done) →
      ∀ q ∈ specs.foldl (fun acc rel => populateRelation st rel acc) acc,
        q.relations.map (fun r => r.1) = done ++ specs := by
  induction specs with
  | nil =>
      intro acc done hacc q hq
      rw [List.append_nil]
      exact hacc q hq
  | cons rel rest ih =>
      intro acc done hacc q hq
      rw [List.foldl_cons] at hq
      have step : ∀ p ∈ populateRelation st rel acc,
          p.relations.map (fun r => r.1) = done ++ [rel] := by
        intro p hp
        unfold populateRelation at hp
        rw [List.mem_map] at hp
        obtain ⟨p₀, hp₀, hpe⟩ := hp
        rw [← hpe]
        simp only [List.map_append, List.map_cons, List.map_nil]
        rw [hacc p₀ hp₀]
      have := ih (populateRelation st rel acc) (done ++ [rel]) step q hq
      rw [this, List.append_assoc]
      rfl

/-- C4: population returns the same document list in the same order as the
executor produced it — each base document is unchanged (so the original
`*_id` / `*_ids` foreign-key fields are still present alongside the hydrated
values) and the attached relation keys are exactly the requested relation
names in order. -/
theorem population_preserves_page (st : Store) (specs : List String)
    (page : List Doc) :
    (populateAll st specs page).map (fun p => p.base) = page
    ∧ ∀ q ∈ populateAll st specs page,
        q.relations.map (fun r => r.1) = specs := by
  constructor
  · unfold populateAll
    rw [populateAll_base, List.map_map]
    exact List.map_id page
  · intro q hq
    have := populateAll_keys st specs (page.map (fun d => ⟨d, []⟩)) []
      (by intro p hp
          rw [List.mem_map] at hp
          obtain ⟨d, _, he⟩ := hp
          rw [← he]
          rfl) q hq
    rw [this]
    rfl

/-- Witness for `population_preserves_page` (its universally quantified
membership conjunct discharged at a concrete page): populating `author` on
one post keeps the base document, its `author_id` field included. -/
theorem population_preserves_page_witness :
    (populateAll ⟨[], [⟨"u1", [("role", .str "admin")]⟩]⟩ ["author"]
        [⟨"p1", [("author_id", .str "u1")]⟩]).map (fun p => p.base)
      = [⟨"p1", [("author_id", .str "u1")]⟩] :=
  (population_preserves_page ⟨[], [⟨"u1", [("role", .str "admin")]⟩]⟩
    ["author"] [⟨"p1", [("author_id", .str "u1")]⟩]).1

/-- Lookup of one hydrated relation by name on a populated document. -/
def relLookup (rs : List (String × RelVal)) (rel : String) : Option RelVal :=
  (rs.find? (fun r => decide (r.1 = rel))).map (fun r => r.2)

/-- Client-side filter on a populated page, following the spec's words: a
populated document passes when its hydrated relation entity exists and that
entity's inner field satisfies the clause operator. -/
def populatedRelMatches (rel inner : String) (op : OperatorKind)
    (v : ClauseVal) (q : PopulatedDoc) : Bool :=
  match relLookup q.relations rel with
  | some (.one (some e)) => evalOp (getField e inner) op v
  | _ => false

/-- Ids returned by querying a collection with a compiled one-level
relationship-qualified clause. -/
def relFilterIds (st : Store) (coll rel inner : String) (op : OperatorKind)
    (v : ClauseVal) : List String :=
  ((docsOf st coll).filter (fun d =>
      evalClause d (compileRelClause st ⟨[rel, inner], op, v, none⟩))).map
    (fun d => d.id)

/-- Ids returned by populating the relation on all documents of the
collection and then filtering client-side on the populated entity's field. -/
def populateThenFilterIds (st : Store) (coll rel inner : String)
    (op : OperatorKind) (v : ClauseVal) : List String :=
  ((populateAll st [rel] (docsOf st coll)).filter
      (populatedRelMatches rel inner op v)).map (fun q => q.base.id)

theorem find?_filter_of_imp {α : Type} (p q : α → Bool) (l : List α)
    (h : ∀ a ∈ l, q a = true → p a = true) :
    (l.filter p).find? q = l.find? q := by
  induction l with
  | nil => rfl
  | cons a l ih =>
      have hrec := ih (fun x hx => h x (List.mem_cons_of_mem a hx))
      by_cases hq : q a = true
      · have hp := h a (List.mem_cons_self a l) hq
        rw [List.filter_cons_of_pos hp, List.find?_cons_of_pos _ hq,
          List.find?_cons_of_pos _ hq]
      · rw [List.find?_cons_of_neg _ hq]
        by_cases hp : p a = true
        · rw [List.filter_cons_of_pos hp, List.find?_cons_of_neg _ hq]
          exact hrec
        · rw [List.filter_cons_of_neg (by simpa using hp)]
          exact hrec

theorem lookup_fetchByIds (tdocs : List Doc) (ids : List String) (s : String)
    (hs : s ∈ ids) :
    lookupById (fetchByIds tdocs ids) s = lookupById tdocs s := by
  unfold lookupById fetchByIds
  apply find?_filter_of_imp
  intro d _ hq
  have hd : d.id = s := of_decide_eq_true hq
  rw [hd]
  show ids.elem s = true
  exact List.elem_iff.mpr hs

theorem matched_ids_none (tdocs : List Doc) (pred : Doc → Bool) (s : String)
    (hfind : lookupById tdocs s = none) :
    decide (Value.str s ∈ (tdocs.filter pred).map (fun t => Value.str t.id))
      = false := by
  rw [decide_eq_false_iff_not]
  intro hmem
  rw [List.mem_map] at hmem
  obtain ⟨t, htm, hts⟩ := hmem
  rw [List.mem_filter] at htm
  have hid : t.id = s := Value.str.inj hts
  have hfind' : List.find? (fun x => decide (x.id = s)) tdocs = none := hfind
  rw [List.find?_eq_none] at hfind'
  exact hfind' t htm.1 (by simp [hid])

theorem matched_ids_some (tdocs : List Doc) (pred : Doc → Bool) (s : String)
    (e : Doc) (hids : (tdocs.map (fun d => d.id)).Nodup)
    (hfind : lookupById tdocs s = some e) :
    decide (Value.str s ∈ (tdocs.filter pred).map (fun t => Value.str t.id))
      = pred e := by
  have hfind' : List.find? (fun x => decide (x.id = s)) tdocs = some e := hfind
  have hpa := List.find?_some hfind'
  have hes : e.id = s := of_decide_eq_true hpa
  have hem : e ∈ tdocs := List.mem_of_find?_eq_some hfind'
  by_cases hpred : pred e = true
  · rw [hpred]
    apply decide_eq_true
    rw [List.mem_map]
    exact ⟨e, List.mem_filter.mpr ⟨hem, hpred⟩, by rw [hes]⟩
  · rw [Bool.eq_false_iff.mpr hpred, decide_eq_false_iff_not]
    intro hmem
    rw [List.mem_map] at hmem
    obtain ⟨t, htm, hts⟩ := hmem
    rw [List.mem_filter] at htm
    have hid : t.id = s := Value.str.inj hts
    have hte : t = e :=
      List.inj_on_of_nodup_map hids htm.1 hem (by rw [hid, hes])
    rw [hte] at htm
    exact hpred htm.2

theorem not_mem_str_map (w : Value) (hw : ∀ s, w ≠ .str s) (l : List Doc) :
    decide (w ∈ l.map (fun t => Value.str t.id)) = false := by
  rw [decide_eq_false_iff_not]
  intro hmem
  rw [List.mem_map] at hmem
  obtain ⟨t, _, ht⟩ := hmem
  exact hw t.id ht.symm

theorem populatedRelMatches_single (rel inner : String) (op : OperatorKind)
    (v : ClauseVal) (b : Doc) (rv : RelVal) :
    populatedRelMatches rel inner op v ⟨b, [(rel, rv)]⟩
      = (match rv with
         | .one (some e) => evalOp (getField e inner) op v
         | _ => false) := by
  unfold populatedRelMatches
  have h : relLookup [(rel, rv)] rel = some rv := by simp [relLookup]
  rw [h]
  cases rv with
  | one e => cases e <;> rfl
  | many es => rfl

/-- C3: querying a collection with a one-level relationship-qualified clause
returns exactly the same id set (in fact the same id list) as populating the
relation on all documents of the collection and filtering client-side on the
populated entity's field — given that ids are unique in the resolved target
entity set. -/
theorem relationship_filter_refinement (st : Store) (coll rel inner : String)
    (op : OperatorKind) (v : ClauseVal)
    (hids : ((relTarget st rel).map (fun d => d.id)).Nodup) :
    relFilterIds st coll rel inner op v
      = populateThenFilterIds st coll rel inner op v := by
  unfold relFilterIds populateThenFilterIds populateAll
  rw [List.foldl_cons, List.foldl_nil]
  unfold populateRelation
  rw [List.map_map, List.filter_map, List.map_map]
  have hfilter :
      (docsOf st coll).filter (fun d =>
          evalClause d (compileRelClause st ⟨[rel, inner], op, v, none⟩))
        = (docsOf st coll).filter
            ((populatedRelMatches rel inner op v) ∘
              ((fun p : PopulatedDoc =>
                  (⟨p.base, p.relations ++
                    [(rel, hydrateFor st rel
                        ((docsOf st coll).map (fun d => ⟨d, []⟩)) p.base)]⟩ :
                    PopulatedDoc)) ∘ (fun d => (⟨d, []⟩ : PopulatedDoc)))) := by
    apply List.filter_congr
    intro d hd
    have hA : evalClause d (compileRelClause st ⟨[rel, inner], op, v, none⟩)
        = evalOp (getField d (rel ++ "_id")) .in_
            (.litList (((relTarget st rel).filter
                (fun t => evalOp (getField t inner) op v)).map
              (fun t => Value.str t.id))) := rfl
    have hB : (populatedRelMatches rel inner op v)
          ((⟨d, [(rel, hydrateFor st rel
              ((docsOf st coll).map (fun q => ⟨q, []⟩)) d)]⟩ : PopulatedDoc))
        = (match hydrateFor st rel
              ((docsOf st coll).map (fun q => ⟨q, []⟩)) d with
           | .one (some e) => evalOp (getField e inner) op v
           | _ => false) :=
      populatedRelMatches_single rel inner op v d _
    show evalClause d (compileRelClause st ⟨[rel, inner], op, v, none⟩)
        = (populatedRelMatches rel inner op v)
            ((⟨d, [(rel, hydrateFor st rel
                ((docsOf st coll).map (fun q => ⟨q, []⟩)) d)]⟩ : PopulatedDoc))
    rw [hA, hB]
    unfold hydrateFor
    cases hgf : getField d (rel ++ "_id") with
    | none =>
        cases hgm : getField d (rel ++ "_ids") with
        | none => rfl
        | some w => cases w <;> rfl
    | some w =>
        cases w with
        | str s =>
            have hsmem : s ∈ pageIds rel ((docsOf st coll).map (fun q => ⟨q, []⟩)) := by
              unfold pageIds
              rw [List.mem_dedup, List.mem_flatMap]
              refine ⟨⟨d, []⟩, List.mem_map.mpr ⟨d, hd, rfl⟩, ?_⟩
              rw [List.mem_append]
              left
              show s ∈ fkSingleIds d (rel ++ "_id")
              unfold fkSingleIds
              rw [hgf]
              exact List.mem_singleton.mpr rfl
            dsimp only [evalOp]
            rw [lookup_fetchByIds _ _ _ hsmem]
            cases hfind : lookupById (relTarget st rel) s with
            | none =>
                rw [matched_ids_none _ _ _ hfind]
            | some e =>
                rw [matched_ids_some _ _ _ e hids hfind]
        | num n =>
            dsimp only [evalOp]
            rw [not_mem_str_map (.num n) (fun s h => Value.noConfusion h) _]
            cases hgm : getField d (rel ++ "_ids") with
            | none => rfl
            | some w2 => cases w2 <;> rfl
        | bool b =>
            dsimp only [evalOp]
            rw [not_mem_str_map (.bool b) (fun s h => Value.noConfusion h) _]
            cases hgm : getField d (rel ++ "_ids") with
            | none => rfl
            | some w2 => cases w2 <;> rfl
        | null =>
            dsimp only [evalOp]
            rw [not_mem_str_map .null (fun s h => Value.noConfusion h) _]
            cases hgm : getField d (rel ++ "_ids") with
            | none => rfl
            | some w2 => cases w2 <;> rfl
        | strList ss =>
            dsimp only [evalOp]
            rw [not_mem_str_map (.strList ss) (fun s h => Value.noConfusion h) _]
            cases hgm : getField d (rel ++ "_ids") with
            | none => rfl
            | some w2 => cases w2 <;> rfl
  rw [hfilter]
  rfl

/-- Witness for `relationship_filter_refinement`: the spec's running example —
posts `p1` (author `u1`, an admin) and `p2` (author `u2`, a plain user); the
relationship filter `author.role = admin` and populate-then-filter both
return exactly `[p1]`. -/
theorem relationship_filter_refinement_witness :
    ((relTarget ⟨[("posts",
        [⟨"p1", [("author_id", .str "u1")]⟩,
         ⟨"p2", [("author_id", .str "u2")]⟩])],
        [⟨"u1", [("role", .str "admin")]⟩,
         ⟨"u2", [("role", .str "user")]⟩]⟩ "author").map
      (fun d => d.id)).Nodup
    ∧ relFilterIds ⟨[("posts",
        [⟨"p1", [("author_id", .str "u1")]⟩,
         ⟨"p2", [("author_id", .str "u2")]⟩])],
        [⟨"u1", [("role", .str "admin")]⟩,
         ⟨"u2", [("role", .str "user")]⟩]⟩
        "posts" "author" "role" .eq (.lit (.str "admin"))
      = populateThenFilterIds ⟨[("posts",
          [⟨"p1", [("author_id", .str "u1")]⟩,
           ⟨"p2", [("author_id", .str "u2")]⟩])],
          [⟨"u1", [("role", .str "admin")]⟩,
           ⟨"u2", [("role", .str "user")]⟩]⟩
          "posts" "author" "role" .eq (.lit (.str "admin"))
    ∧ relFilterIds ⟨[("posts",
        [⟨"p1", [("author_id", .str "u1")]⟩,
         ⟨"p2", [("author_id", .str "u2")]⟩])],
        [⟨"u1", [("role", .str "admin")]⟩,
         ⟨"u2", [("role", .str "user")]⟩]⟩
        "posts" "author" "role" .eq (.lit (.str "admin")) = ["p1"] :=
  ⟨by decide,
    relationship_filter_refinement _ "posts" "author" "role" .eq
      (.lit (.str "admin")) (by decide),
    by decide⟩

/-- Modelled from the spec: `find_one` of the cloud-function database
service — the first document of a collection matching the filters, `none`
when there is no match or the collection does not exist. -/
def find_one (st : Store) (coll : String) (pred : Doc → Bool) : Option Doc :=
  (docsOf st coll).find? pred

/-- Modelled from the spec: `find_user` — the first user matching the
filters, `none` when there is no match. -/
def find_user (st : Store) (pred : Doc → Bool) : Option Doc :=
  st.users.find? pred

/-- Modelled from the spec: `get_app_user` — user lookup by id, `none` for a
non-existent id. -/
def get_app_user (st : Store) (uid : String) : Option Doc :=
  lookupById st.users uid

/-- Modelled from the spec: `get_documents` — all documents of a collection,
the empty list when the collection does not exist. -/
def get_documents (st : Store) (coll : String) : List Doc :=
  docsOf st coll

/-- Modelled from the spec: `delete_document` — removes a document by id and
reports success; deleting a non-existent document returns `False` and leaves
the store unchanged. -/
def delete_document (st : Store) (coll : String) (docId : String) :
    Bool × Store :=
  if (docsOf st coll).any (fun d => decide (d.id = docId)) then
    (true,
      ⟨st.collections.map (fun p =>
          if p.1 = coll then (p.1, p.2.filter (fun d => !decide (d.id = docId)))
          else p),
        st.users⟩)
  else (false, st)

/-- Modelled from the spec: `count_documents` — the number of matching
documents, `0` for a non-existent collection. -/
def count_documents (st : Store) (coll : String) (pred : Doc → Bool) : Nat :=
  ((docsOf st coll).filter pred).length

/-- Modelled from the spec: `db.query` of the cloud-function runtime, running
the shared QueryExecutor over one collection of the store. -/
def dbQuery (cfg : ExecConfig) (st : Store) (coll : String)
    (req : QueryRequest) : QueryResult :=
  executeQuery cfg (docsOf st coll) req true

theorem docsOf_eq_nil_of_not_mem (st : Store) (coll : String)
    (h : coll ∉ collectionNames st) : docsOf st coll = [] := by
  unfold docsOf
  have hfind : st.collections.find? (fun p => decide (p.1 = coll)) = none := by
    rw [List.find?_eq_none]
    intro p hp hdec
    have hpe : p.1 = coll := of_decide_eq_true hdec
    exact h (hpe ▸ List.mem_map.mpr ⟨p, hp, rfl⟩)
  rw [hfind]
  rfl

/-- C10: every read of the cloud-function database service is total over
missing data — a non-existent single entity yields `none`, a query over a
non-existent collection yields the empty list (and an empty result page),
deleting a non-existent document yields `false` and leaves the store
unchanged, and counting a non-existent collection yields `0`. -/
theorem missing_data_reads_are_total (st : Store) (coll uid docId : String)
    (pred : Doc → Bool) (cfg : ExecConfig) (req : QueryRequest)
    (hcoll : coll ∉ collectionNames st)
    (huid : ∀ u ∈ st.users, u.id ≠ uid)
    (hpred : ∀ u ∈ st.users, pred u = false) :
    get_app_user st uid = none
    ∧ find_user st pred = none
    ∧ find_one st coll pred = none
    ∧ get_documents st coll = []
    ∧ (dbQuery cfg st coll req).data = []
    ∧ (delete_document st coll docId).1 = false
    ∧ (delete_document st coll docId).2 = st
    ∧ count_documents st coll pred = 0 := by
  have hnil := docsOf_eq_nil_of_not_mem st coll hcoll
  refine ⟨?_, ?_, ?_, ?_, ?_, ?_, ?_, ?_⟩
  · unfold get_app_user lookupById
    rw [List.find?_eq_none]
    intro u hu hdec
    exact huid u hu (of_decide_eq_true hdec)
  · unfold find_user
    rw [List.find?_eq_none]
    intro u hu hdec
    rw [hpred u hu] at hdec
    cases hdec
  · unfold find_one
    rw [hnil]
    rfl
  · unfold get_documents
    exact hnil
  · unfold dbQuery executeQuery
    rw [hnil]
    show ((fullSorted req []).drop req.offset).take (effectiveLimit cfg req.limit) = []
    have hfull : fullSorted req [] = [] := by
      unfold fullSorted sortDocs
      rw [List.filter_nil, List.mergeSort_nil]
    rw [hfull, List.drop_nil, List.take_nil]
  · unfold delete_document
    rw [hnil]
    rfl
  · unfold delete_document
    rw [hnil]
    rfl
  · unfold count_documents
    rw [hnil]
    rfl

/-- Witness for `missing_data_reads_are_total`: a store with one `posts`
collection and one user, read with a missing collection name, a missing user
id and a never-matching filter. -/
theorem missing_data_reads_are_total_witness :
    ("missing" ∉ collectionNames ⟨[("posts", [⟨"p1", []⟩])], [⟨"u1", []⟩]⟩)
    ∧ get_app_user ⟨[("posts", [⟨"p1", []⟩])], [⟨"u1", []⟩]⟩ "u9" = none
    ∧ count_documents ⟨[("posts", [⟨"p1", []⟩])], [⟨"u1", []⟩]⟩ "missing"
        (fun d => decide (d.id = "zz")) = 0 := by
  have h := missing_data_reads_are_total
    ⟨[("posts", [⟨"p1", []⟩])], [⟨"u1", []⟩]⟩ "missing" "u9" "doc9"
    (fun d => decide (d.id = "zz")) collectionListingConfig
    ⟨"missing", [], none, false, 10, 0⟩
    (by decide) (by decide) (by decide)
  exact ⟨by decide, h.1, h.2.2.2.2.2.2.2⟩

end Cocobase
